import Mathlib

set_option maxHeartbeats 1000000

/-!
Verification development for `src/golf_leaderboard.py`.

The Python program is shallow-embedded below:

* `Json` models the JSON-like Python values the program manipulates
  (`None`, booleans, numbers, strings, lists, dicts).  Numbers are
  modelled as rationals.
* `extract_from_wrapper` embeds the response normalizer of the same name
  (lines 55-84).  Python raises `AttributeError` when `.get` is called on a
  non-dict, so the embedding returns `Except String Json`, with `.error`
  standing for a raised exception.
* `_extract_player_results` embeds the helper of the same name
  (lines 213-241), including Python truthiness of the `if member_id and
  member_name and gross_score is not None` test.
* `calculate_leaderboard` embeds the function of the same name
  (lines 317-352).  `sorted`/`list.sort` are Python's stable ascending
  sort, embedded as `List.insertionSort` (also stable); the division
  `sum(best_5) / len(best_5)` raises `ZeroDivisionError` when `best_5`
  is empty, so the embedding returns `Except`.
* `mergeResults` embeds the per-result merge loop of `fetch_all_scores`
  (lines 293-296) over the `defaultdict` accumulator, and
  `fetch_all_scores` embeds the traversal (lines 244-314) with the HTTP
  calls abstracted as an `ApiEnv` of fallible functions; the
  `try/except` blocks become `match` on `Except` values.
-/

/-- JSON-like Python values: `None`, booleans, numbers (as rationals),
strings, lists, and dicts (as association lists of string keys). -/
inductive Json where
  | null
  | bool (b : Bool)
  | num (q : Rat)
  | str (s : String)
  | arr (items : List Json)
  | obj (fields : List (String × Json))

/-- Python `d.get(k)` on a dict represented as an association list
(first matching key wins; dicts built by `json` parsing have unique keys). -/
def assocFind {β : Type} : List (String × β) → String → Option β
  | [], _ => none
  | (k, v) :: rest, key => if k = key then some v else assocFind rest key

/-- Python truthiness of a JSON-like value: `None`, `False`, `0`, `""`,
`[]` and `{}` are falsy, everything else is truthy. -/
def Json.truthy : Json → Bool
  | .null => false
  | .bool b => b
  | .num q => decide (q ≠ 0)
  | .str s => decide (s ≠ "")
  | .arr items => !items.isEmpty
  | .obj fields => !fields.isEmpty

/-- Python `is not None` test, i.e. the value is not JSON null. -/
def Json.isNull : Json → Bool
  | .null => true
  | _ => false

/-- Whether a JSON value is a dict. -/
def Json.isObj : Json → Bool
  | .obj _ => true
  | _ => false

/-- The list branch of `extract_from_wrapper` (line 73):
`[item.get(key, item) for item in data]`.  Python's `dict.get(key, default)`
returns the stored value when the key is present and `default` otherwise;
calling `.get` on a non-dict element raises `AttributeError`. -/
def extractListItems (key : String) : List Json → Except String (List Json)
  | [] => .ok []
  | item :: rest =>
    match item with
    | .obj fields =>
      match extractListItems key rest with
      | .ok l => .ok (((assocFind fields key).getD (.obj fields)) :: l)
      | .error e => .error e
    | _ => .error "AttributeError"

/-- Embedding of `extract_from_wrapper` (lines 55-84). -/
def extract_from_wrapper (data : Json) (key : String) : Except String Json :=
  match data with
  | .arr items =>
    match extractListItems key items with
    | .ok l => .ok (.arr l)
    | .error e => .error e
  | .obj fields =>
    match assocFind fields (key ++ "s") with
    | some v => .ok v
    | none =>
      match assocFind fields key with
      | some v => .ok (.arr [v])
      | none => .ok (.arr [.obj fields])
  | _ => .ok (.arr [])

/-- One element of the list built by `_extract_player_results`
(lines 235-239): a dict with keys `member_id`, `name`, `gross_score`. -/
structure ExtractedResult where
  member_id : Json
  name : Json
  gross_score : Json

/-- Embedding of `_extract_player_results` (lines 213-241).  For each
item: `member_id = player.get('member_id')`, `name = player.get('name')`,
`totals = player.get('totals', {})`, `gross_scores = totals.get('gross_scores', {})`,
`gross_score = gross_scores.get('total')`, and the item is kept only when
`member_id and member_name and gross_score is not None` (Python truthiness
for the first two, an `is not None` test for the third).  Calling `.get`
on a non-dict raises `AttributeError`, which propagates. -/
def _extract_player_results : List Json → Except String (List ExtractedResult)
  | [] => .ok []
  | player :: rest =>
    match player with
    | .obj fields =>
      match (assocFind fields "totals").getD (.obj []) with
      | .obj totalsFields =>
        match (assocFind totalsFields "gross_scores").getD (.obj []) with
        | .obj grossFields =>
          let member_id := (assocFind fields "member_id").getD .null
          let member_name := (assocFind fields "name").getD .null
          let gross_score := (assocFind grossFields "total").getD .null
          if member_id.truthy && member_name.truthy && !gross_score.isNull then
            match _extract_player_results rest with
            | .ok l => .ok (⟨member_id, member_name, gross_score⟩ :: l)
            | .error e => .error e
          else _extract_player_results rest
        | _ => .error "AttributeError"
      | _ => .error "AttributeError"
    | _ => .error "AttributeError"

/-- A value of the accumulating player map of `fetch_all_scores`
(line 260): `{'name': ..., 'scores': [...]}`. -/
structure RawRecord where
  name : String
  scores : List Rat
deriving DecidableEq

/-- The `defaultdict` default (line 260): `{'name': '', 'scores': []}`. -/
def emptyRec : RawRecord := ⟨"", []⟩

/-- One tournament result as consumed by the merge loop (lines 293-296). -/
structure PlayerResult where
  member_id : String
  name : String
  gross_score : Rat
deriving DecidableEq

/-- Lines 295-296 applied to one record:
`player_data[member_id]['name'] = result['name']` then
`player_data[member_id]['scores'].append(result['gross_score'])`. -/
def applyResult (rec : RawRecord) (r : PlayerResult) : RawRecord :=
  ⟨r.name, rec.scores ++ [r.gross_score]⟩

/-- One iteration of the merge loop (lines 293-296) on the accumulating
map, modelled as an insertion-ordered association list: the first
occurrence of a `member_id` creates the record at the end of the map
(the `defaultdict` default), later occurrences update it in place. -/
def updateMap : List (String × RawRecord) → PlayerResult → List (String × RawRecord)
  | [], r => [(r.member_id, applyResult emptyRec r)]
  | (k, rec) :: rest, r =>
    if k = r.member_id then (k, applyResult rec r) :: rest
    else (k, rec) :: updateMap rest r

/-- The whole merge loop of `fetch_all_scores` (lines 293-296) over one
batch of results. -/
def mergeResults (acc : List (String × RawRecord)) (results : List PlayerResult) :
    List (String × RawRecord) :=
  results.foldl updateMap acc

/-- Python dict lookup `player_data[member_id]` on the accumulating map. -/
def findRec (mp : List (String × RawRecord)) (mid : String) : Option RawRecord :=
  assocFind mp mid

/-- The remote API as seen by `fetch_all_scores`: each fetch either
returns data or raises (`.error`).  `rounds` abstracts
`get_event_rounds` (line 271), `tournament_ids` abstracts
`get_tournament_ids` (line 279) and `results` abstracts
`get_tournament_results` (line 286). -/
structure ApiEnv where
  rounds : String → Except String (List String)
  tournament_ids : String → String → Except String (List String)
  results : String → String → String → Except String (List PlayerResult)

/-- The per-tournament body of `fetch_all_scores` (lines 284-305): a
failure fetching one tournament's results is caught (`except ... continue`)
and leaves the accumulated map unchanged; otherwise the results are merged. -/
def processTournament (env : ApiEnv) (eventId roundId : String)
    (acc : List (String × RawRecord)) (tournamentId : String) :
    List (String × RawRecord) :=
  match env.results eventId roundId tournamentId with
  | .error _ => acc
  | .ok rs => mergeResults acc rs

/-- The per-round body of `fetch_all_scores` (lines 274-312): the
tournament-id fetch and the tournament loop sit in a `try` whose
`except ... continue` catches any failure and leaves the map unchanged. -/
def processRound (env : ApiEnv) (eventId : String)
    (acc : List (String × RawRecord)) (roundId : String) :
    List (String × RawRecord) :=
  match env.tournament_ids eventId roundId with
  | .error _ => acc
  | .ok ts => ts.foldl (processTournament env eventId roundId) acc

/-- The per-event body of `fetch_all_scores` (lines 265-312): the rounds
fetch (line 271) is not inside any `try`, so its failure propagates. -/
def processEvent (env : ApiEnv) (acc : List (String × RawRecord)) (eventId : String) :
    Except String (List (String × RawRecord)) :=
  match env.rounds eventId with
  | .error e => .error e
  | .ok rounds => .ok (rounds.foldl (processRound env eventId) acc)

/-- Embedding of `fetch_all_scores` (lines 244-314), the event list given
(its own fetch, line 263, is outside the failure-isolation machinery). -/
def fetch_all_scores (env : ApiEnv) (events : List String) :
    Except String (List (String × RawRecord)) :=
  events.foldlM (processEvent env) []

/-- A record of the `player_data` argument of `calculate_leaderboard`. -/
structure PlayerRecord where
  name : String
  scores : List Rat
deriving DecidableEq

/-- One tuple appended by `calculate_leaderboard` (lines 342-347). -/
structure LeaderboardEntry where
  name : String
  average_of_best_5 : Rat
  num_rounds : Nat
  best_5 : List Rat
deriving DecidableEq

/-- Python `sorted(scores)` (line 339): stable ascending sort. -/
def sortScores (scores : List Rat) : List Rat := scores.insertionSort (· ≤ ·)

/-- Line 339: `best_5 = sorted(scores)[:5]`. -/
def best5 (scores : List Rat) : List Rat := (sortScores scores).take 5

/-- Lines 340-347 for one qualifying record: the tuple
`(name, sum(best_5)/len(best_5), num_rounds, best_5)`. -/
def entryOf (d : PlayerRecord) : LeaderboardEntry :=
  ⟨d.name, (best5 d.scores).sum / ((best5 d.scores).length : Rat),
    d.scores.length, best5 d.scores⟩

/-- The sort key comparison of line 350: `key=lambda x: x[1]`. -/
def entryLE (a b : LeaderboardEntry) : Prop :=
  a.average_of_best_5 ≤ b.average_of_best_5

instance : DecidableRel entryLE := fun a b =>
  inferInstanceAs (Decidable (a.average_of_best_5 ≤ b.average_of_best_5))

instance : IsTotal LeaderboardEntry entryLE := ⟨fun a b => le_total _ _⟩

instance : IsTrans LeaderboardEntry entryLE := ⟨fun _ _ _ h h' => le_trans h h'⟩

/-- The accumulation loop of `calculate_leaderboard` (lines 330-347):
records with fewer than `min_rounds` scores are skipped (line 335);
otherwise `sum(best_5) / len(best_5)` is computed, which raises
`ZeroDivisionError` when `best_5` is empty. -/
def qualifyingEntries (min_rounds : Int) :
    List (String × PlayerRecord) → Except String (List LeaderboardEntry)
  | [] => .ok []
  | (_, d) :: rest =>
    if (d.scores.length : Int) < min_rounds then qualifyingEntries min_rounds rest
    else if (best5 d.scores).length = 0 then
      .error "ZeroDivisionError: division by zero"
    else
      match qualifyingEntries min_rounds rest with
      | .ok l => .ok (entryOf d :: l)
      | .error e => .error e

/-- Embedding of `calculate_leaderboard` (lines 317-352): accumulate the
qualifying entries in iteration order, then `leaderboard.sort(key=lambda
x: x[1])`, Python's stable ascending sort on the average. -/
def calculate_leaderboard (player_data : List (String × PlayerRecord))
    (min_rounds : Int) : Except String (List LeaderboardEntry) :=
  match qualifyingEntries min_rounds player_data with
  | .ok l => .ok (l.insertionSort entryLE)
  | .error e => .error e

/-- Spec-side notion, from the spec's words: `b` lists the `k` numerically
smallest values of `s` (with multiplicity) in ascending order.  The
conditions pin `b` down uniquely: it is sorted, has `min k s.length`
elements, is a sub-multiset of `s`, and every value it contains is less
than or equal to every value of `s` left out of it. -/
def isKSmallestAsc (k : Nat) (s b : List Rat) : Prop :=
  b.Sorted (· ≤ ·) ∧ b.length = min k s.length ∧ List.Subperm b s ∧
    ∀ x ∈ b, ∀ y ∈ s.diff b, x ≤ y

/-- The value Python binds to `gross_score` for one result item:
`player.get('totals', {}).get('gross_scores', {}).get('total')`, with
`Json.null` standing for Python `None` and for the (unreachable under
well-shapedness) non-dict cases. -/
def grossTotal (fields : List (String × Json)) : Json :=
  match (assocFind fields "totals").getD (.obj []) with
  | .obj totalsFields =>
    match (assocFind totalsFields "gross_scores").getD (.obj []) with
    | .obj grossFields => (assocFind grossFields "total").getD .null
    | _ => .null
  | _ => .null

/-- Spec-side description of how one `individual_results` item is
treated: kept, and mapped to `{member_id, name, gross_score}`, exactly
when `member_id` and `name` are truthy and `totals.gross_scores.total`
is present and not null; dropped otherwise. -/
def extractOne (j : Json) : Option ExtractedResult :=
  match j with
  | .obj fields =>
    let member_id := (assocFind fields "member_id").getD .null
    let member_name := (assocFind fields "name").getD .null
    let gross_score := grossTotal fields
    if member_id.truthy && member_name.truthy && !gross_score.isNull then
      some ⟨member_id, member_name, gross_score⟩
    else none
  | _ => none

/-- An `individual_results` item on which the extraction code performs no
`.get` call on a non-dict: the item is a dict, and its `totals` field and
the nested `gross_scores` field, when present, are dicts. -/
def itemWellShaped (j : Json) : Bool :=
  match j with
  | .obj fields =>
    match (assocFind fields "totals").getD (.obj []) with
    | .obj totalsFields =>
      match (assocFind totalsFields "gross_scores").getD (.obj []) with
      | .obj _ => true
      | _ => false
    | _ => false
  | _ => false

/-- A concrete API environment: one event `E1` with two rounds; the
tournament-id fetch for round `R1` fails, round `R2` has one tournament
with one result. -/
def envC : ApiEnv where
  rounds := fun e => if e = "E1" then .ok ["R1", "R2"] else .error "404"
  tournament_ids := fun e r =>
    if e = "E1" ∧ r = "R2" then .ok ["T1"] else .error "boom"
  results := fun e r t =>
    if e = "E1" ∧ r = "R2" ∧ t = "T1" then .ok [⟨"m1", "Al", 72⟩]
    else .error "404"

/-- A result item whose `member_id` is present but empty (falsy), with
`name` present and `totals.gross_scores.total` present and non-null. -/
def cexFields : List (String × Json) :=
  [("member_id", .str ""), ("name", .str "Bob"),
   ("totals", .obj [("gross_scores", .obj [("total", .num 72)])])]

/-! ### Lemmas about association-list lookup -/

theorem assocFind_eq_none {β : Type} (fields : List (String × β)) (k : String) :
    assocFind fields k = none ↔ k ∉ fields.map Prod.fst := by
  induction fields with
  | nil => simp [assocFind]
  | cons p rest ih =>
    obtain ⟨k', v⟩ := p
    by_cases h : k' = k
    · subst h
      simp [assocFind]
    · simp [assocFind, h, ih, Ne.symm h]

theorem assocFind_of_mem {β : Type} {fields : List (String × β)} {k : String} {v : β}
    (hnd : (fields.map Prod.fst).Nodup) (hmem : (k, v) ∈ fields) :
    assocFind fields k = some v := by
  induction fields with
  | nil => cases hmem
  | cons p rest ih =>
    obtain ⟨k', v'⟩ := p
    rcases List.mem_cons.mp hmem with heq | hmem'
    · obtain ⟨rfl, rfl⟩ := Prod.mk.injEq .. ▸ heq
      simp [assocFind]
    · have hk : k ∈ rest.map Prod.fst :=
        List.mem_map.mpr ⟨(k, v), hmem', rfl⟩
      have hne : k' ≠ k := by
        rintro rfl
        exact (List.nodup_cons.mp hnd).1 hk
      simp only [assocFind, if_neg hne]
      exact ih (List.nodup_cons.mp hnd).2 hmem'

theorem extractListItems_allObj (key : String) (items : List Json)
    (h : ∀ j ∈ items, j.isObj = true) :
    extractListItems key items = .ok (items.map fun j =>
      match j with
      | .obj fields => (assocFind fields key).getD (.obj fields)
      | _ => j) := by
  induction items with
  | nil => rfl
  | cons j rest ih =>
    have hj := h j (List.mem_cons_self _ _)
    have hr : ∀ x ∈ rest, x.isObj = true := fun x hx => h x (List.mem_cons_of_mem _ hx)
    cases j with
    | obj fields => simp [extractListItems, ih hr]
    | null => simp [Json.isObj] at hj
    | bool b => simp [Json.isObj] at hj
    | num q => simp [Json.isObj] at hj
    | str s => simp [Json.isObj] at hj
    | arr its => simp [Json.isObj] at hj

/-- C4 (amended): for every sequence all of whose elements are objects,
the normalizer returns, in the original order, for each element the
nested value under `wrapper_key` when the element contains that key and
the element itself otherwise; on a sequence containing a non-object
element it instead raises `AttributeError` (see `C4_counterexample`). -/
theorem C4_normalizer_list (items : List Json) (key : String)
    (h : ∀ j ∈ items, j.isObj = true) :
    extract_from_wrapper (.arr items) key = .ok (.arr (items.map fun j =>
      match j with
      | .obj fields => (assocFind fields key).getD (.obj fields)
      | _ => j)) := by
  simp [extract_from_wrapper, extractListItems_allObj key items h]

/-- C4 counterexample: on the sequence `[5]` — a sequence containing a
non-object element — the normalizer raises `AttributeError` (Python
evaluates `(5).get(key, 5)`), rather than returning the element itself
without error as the claim states. -/
theorem C4_counterexample :
    extract_from_wrapper (.arr [.num 5]) "event" = .error "AttributeError" ∧
    extract_from_wrapper (.arr [.num 5]) "event" ≠ .ok (.arr [.num 5]) := by
  refine ⟨rfl, fun h => ?_⟩
  rw [show extract_from_wrapper (.arr [.num 5]) "event" = .error "AttributeError" from rfl] at h
  exact Except.noConfusion h

theorem C4_witness :
    extract_from_wrapper (.arr [.obj [("event", .obj [("id", .num 5)])]]) "event" =
      .ok (.arr [.obj [("id", .num 5)]]) :=
  (C4_normalizer_list [.obj [("event", .obj [("id", .num 5)])]] "event"
    (by decide)).trans rfl

/-- C5: on an object, the normalizer returns the collection stored under
the pluralized key as-is when present, otherwise a single-element
sequence with the value under the key when present, otherwise a
single-element sequence holding the whole object; on a value that is
neither a sequence nor an object it returns the empty sequence. -/
theorem C5_normalizer_object (fields : List (String × Json)) (key : String)
    (hnd : (fields.map Prod.fst).Nodup) :
    (∀ v, (key ++ "s", v) ∈ fields → extract_from_wrapper (.obj fields) key = .ok v) ∧
    ((key ++ "s") ∉ fields.map Prod.fst →
      ∀ v, (key, v) ∈ fields → extract_from_wrapper (.obj fields) key = .ok (.arr [v])) ∧
    ((key ++ "s") ∉ fields.map Prod.fst → key ∉ fields.map Prod.fst →
      extract_from_wrapper (.obj fields) key = .ok (.arr [.obj fields])) ∧
    (∀ b q s, extract_from_wrapper .null key = .ok (.arr []) ∧
      extract_from_wrapper (.bool b) key = .ok (.arr []) ∧
      extract_from_wrapper (.num q) key = .ok (.arr []) ∧
      extract_from_wrapper (.str s) key = .ok (.arr [])) := by
  refine ⟨fun v hv => ?_, fun hnp v hv => ?_, fun hnp hnk => ?_,
    fun b q s => ⟨rfl, rfl, rfl, rfl⟩⟩
  · have h1 : assocFind fields (key ++ "s") = some v := assocFind_of_mem hnd hv
    simp [extract_from_wrapper, h1]
  · have h1 : assocFind fields (key ++ "s") = none := (assocFind_eq_none _ _).mpr hnp
    have h2 : assocFind fields key = some v := assocFind_of_mem hnd hv
    simp [extract_from_wrapper, h1, h2]
  · have h1 : assocFind fields (key ++ "s") = none := (assocFind_eq_none _ _).mpr hnp
    have h2 : assocFind fields key = none := (assocFind_eq_none _ _).mpr hnk
    simp [extract_from_wrapper, h1, h2]

theorem C5_witness :
    extract_from_wrapper
      (.obj [("events", .arr [.obj [("id", .num 1)], .obj [("id", .num 2)]])]) "event" =
      .ok (.arr [.obj [("id", .num 1)], .obj [("id", .num 2)]]) :=
  (C5_normalizer_object
      [("events", .arr [.obj [("id", .num 1)], .obj [("id", .num 2)]])] "event"
      (List.nodup_singleton _)).1
    (.arr [.obj [("id", .num 1)], .obj [("id", .num 2)]]) (List.mem_singleton.mpr rfl)

/-! ### Player-result extraction (C6) -/

theorem extract_player_results_wellShaped (items : List Json)
    (h : ∀ j ∈ items, itemWellShaped j = true) :
    _extract_player_results items = .ok (items.filterMap extractOne) := by
  induction items with
  | nil => rfl
  | cons j rest ih =>
    have hj := h j (List.mem_cons_self _ _)
    have hr : ∀ x ∈ rest, itemWellShaped x = true :=
      fun x hx => h x (List.mem_cons_of_mem _ hx)
    cases j with
    | obj fields =>
      rcases htot : (assocFind fields "totals").getD (.obj []) with _ | b | q | s | its | totalsFields
      case obj =>
        rcases hgs : (assocFind totalsFields "gross_scores").getD (.obj []) with
          _ | b' | q' | s' | its' | grossFields
        case obj =>
          by_cases hc : (((assocFind fields "member_id").getD .null).truthy &&
              ((assocFind fields "name").getD .null).truthy &&
              !((assocFind grossFields "total").getD .null).isNull) = true
          · simp [_extract_player_results, htot, hgs, hc, ih hr, extractOne, grossTotal]
          · simp [_extract_player_results, htot, hgs, hc, ih hr, extractOne, grossTotal]
        all_goals simp [itemWellShaped, htot, hgs] at hj
      all_goals simp [itemWellShaped, htot] at hj
    | null => simp [itemWellShaped] at hj
    | bool b => simp [itemWellShaped] at hj
    | num q => simp [itemWellShaped] at hj
    | str s => simp [itemWellShaped] at hj
    | arr its => simp [itemWellShaped] at hj

/-- C6 (amended): assuming each `individual_results` item is an object
whose `totals` field and nested `gross_scores` field, when present, are
objects, the extraction keeps an item — in order, mapped to
`{member_id, name, gross_score}` — exactly when `member_id` and `name`
are truthy (not merely present) and `totals.gross_scores.total` is
present and not null, and silently drops every other item.  The claim's
"present" must be weakened to Python truthiness: see
`C6_counterexample`. -/
theorem C6_player_extraction (items : List Json)
    (h : ∀ j ∈ items, itemWellShaped j = true) :
    _extract_player_results items = .ok (items.filterMap extractOne) ∧
    (∀ fields, (∃ res, extractOne (.obj fields) = some res) ↔
      (((assocFind fields "member_id").getD .null).truthy = true ∧
       ((assocFind fields "name").getD .null).truthy = true ∧
       grossTotal fields ≠ .null)) ∧
    (∀ fields res, extractOne (.obj fields) = some res →
      res = ⟨(assocFind fields "member_id").getD .null,
             (assocFind fields "name").getD .null, grossTotal fields⟩) := by
  refine ⟨extract_player_results_wellShaped items h, fun fields => ?_, fun fields res hres => ?_⟩
  · constructor
    · rintro ⟨res, hres⟩
      by_cases hc : (((assocFind fields "member_id").getD .null).truthy &&
          ((assocFind fields "name").getD .null).truthy &&
          !(grossTotal fields).isNull) = true
      · have := hc
        simp only [Bool.and_eq_true, Bool.not_eq_true'] at this
        refine ⟨this.1.1, this.1.2, fun hn => ?_⟩
        rw [hn] at this
        exact absurd this.2 (by simp [Json.isNull])
      · simp [extractOne, hc] at hres
    · rintro ⟨h1, h2, h3⟩
      have hc : (((assocFind fields "member_id").getD .null).truthy &&
          ((assocFind fields "name").getD .null).truthy &&
          !(grossTotal fields).isNull) = true := by
        simp only [Bool.and_eq_true, Bool.not_eq_true']
        refine ⟨⟨h1, h2⟩, ?_⟩
        cases hg : grossTotal fields <;> simp [Json.isNull]
        exact absurd hg h3
      exact ⟨⟨(assocFind fields "member_id").getD .null,
        (assocFind fields "name").getD .null, grossTotal fields⟩,
        by simp [extractOne, hc]⟩
  · by_cases hc : (((assocFind fields "member_id").getD .null).truthy &&
        ((assocFind fields "name").getD .null).truthy &&
        !(grossTotal fields).isNull) = true
    · simp only [extractOne, hc, if_true, Option.some.injEq] at hres
      exact hres.symm
    · simp [extractOne, hc] at hres

/-- C6 counterexample: an item whose `member_id` is present (the empty
string), whose `name` is present, and whose `totals.gross_scores.total`
is present and not null.  The claim says the item is included; the code
drops it, because `if member_id and member_name and ...` tests Python
truthiness and `""` is falsy. -/
theorem C6_counterexample :
    assocFind cexFields "member_id" = some (Json.str "") ∧
    assocFind cexFields "name" = some (Json.str "Bob") ∧
    grossTotal cexFields = Json.num 72 ∧
    _extract_player_results [Json.obj cexFields] = .ok [] :=
  ⟨rfl, rfl, rfl, rfl⟩

theorem C6_witness :
    _extract_player_results
      [Json.obj [("member_id", .str "m1"), ("name", .str "Al"),
        ("totals", .obj [("gross_scores", .obj [("total", .num 72)])])],
       Json.obj [("member_id", .str "m2"), ("name", .str "Bo"),
        ("totals", .obj [("gross_scores", .obj [])])]] =
      .ok [⟨.str "m1", .str "Al", .num 72⟩] :=
  ((C6_player_extraction
      [Json.obj [("member_id", .str "m1"), ("name", .str "Al"),
        ("totals", .obj [("gross_scores", .obj [("total", .num 72)])])],
       Json.obj [("member_id", .str "m2"), ("name", .str "Bo"),
        ("totals", .obj [("gross_scores", .obj [])])]]
      (by decide)).1).trans rfl

/-! ### Lemmas about the leaderboard calculator -/

theorem sortScores_perm (s : List Rat) : (sortScores s).Perm s :=
  List.perm_insertionSort _ _

theorem sortScores_sorted (s : List Rat) : (sortScores s).Sorted (· ≤ ·) :=
  List.sorted_insertionSort _ _

theorem append_diff_self {α : Type} [DecidableEq α] :
    ∀ l₁ l₂ : List α, (l₁ ++ l₂).diff l₁ = l₂
  | [], l₂ => by simp
  | a :: l₁, l₂ => by
    rw [List.cons_append, List.diff_cons, List.erase_cons_head]
    exact append_diff_self l₁ l₂

theorem best5_isKSmallestAsc (s : List Rat) : isKSmallestAsc 5 s (best5 s) := by
  refine ⟨?_, ?_, ?_, ?_⟩
  · exact (sortScores_sorted s).sublist (List.take_sublist _ _)
  · rw [best5, List.length_take, (sortScores_perm s).length_eq]
  · exact ((List.take_sublist _ _).subperm).trans (sortScores_perm s).subperm
  · intro x hx y hy
    have hdiff : (sortScores s).diff (best5 s) = (sortScores s).drop 5 := by
      conv_lhs => rw [← List.take_append_drop 5 (sortScores s)]
      exact append_diff_self _ _
    have hperm : (s.diff (best5 s)).Perm ((sortScores s).diff (best5 s)) :=
      (sortScores_perm s).symm.diff_right _
    have hy' : y ∈ (sortScores s).drop 5 := hdiff ▸ hperm.mem_iff.mp hy
    exact (sortScores_sorted s).rel_of_mem_take_of_mem_drop hx hy'

theorem qualifyingEntries_ok {m : Int} :
    ∀ {pd : List (String × PlayerRecord)} {l : List LeaderboardEntry},
      qualifyingEntries m pd = .ok l →
      l = (pd.filter fun p => decide (m ≤ (p.2.scores.length : Int))).map
        fun p => entryOf p.2 := by
  intro pd
  induction pd with
  | nil =>
    intro l h
    simp only [qualifyingEntries, Except.ok.injEq] at h
    simp [← h]
  | cons p rest ih =>
    intro l h
    obtain ⟨mid, d⟩ := p
    by_cases hlt : (d.scores.length : Int) < m
    · simp only [qualifyingEntries, if_pos hlt] at h
      rw [ih h, List.filter_cons, if_neg (by simp [not_le.mpr hlt])]
    · simp only [qualifyingEntries, if_neg hlt] at h
      by_cases hz : (best5 d.scores).length = 0
      · rw [if_pos hz] at h
        exact absurd h (by simp)
      · rw [if_neg hz] at h
        cases hq : qualifyingEntries m rest with
        | error e => rw [hq] at h; exact absurd h (by simp)
        | ok l' =>
          rw [hq] at h
          simp only [Except.ok.injEq] at h
          rw [← h, ih hq, List.filter_cons, if_pos (by simp [not_lt.mp hlt])]
          rfl

theorem best5_length_ne_zero {s : List Rat} (h : s ≠ []) : (best5 s).length ≠ 0 := by
  rw [best5, List.length_take, (sortScores_perm s).length_eq]
  have : s.length ≠ 0 := fun h0 => h (List.length_eq_zero.mp h0)
  omega

theorem qualifyingEntries_total {m : Int} {pd : List (String × PlayerRecord)}
    (h : 1 ≤ m ∨ ∀ p ∈ pd, p.2.scores ≠ []) :
    ∃ l, qualifyingEntries m pd = .ok l := by
  induction pd with
  | nil => exact ⟨[], rfl⟩
  | cons p rest ih =>
    obtain ⟨mid, d⟩ := p
    have hrest : 1 ≤ m ∨ ∀ q ∈ rest, q.2.scores ≠ [] := by
      rcases h with h | h
      · exact Or.inl h
      · exact Or.inr fun q hq => h q (List.mem_cons_of_mem _ hq)
    obtain ⟨l', hl'⟩ := ih hrest
    by_cases hlt : (d.scores.length : Int) < m
    · exact ⟨l', by simp only [qualifyingEntries, if_pos hlt]; exact hl'⟩
    · have hne : d.scores ≠ [] := by
        rcases h with h1 | h1
        · intro hnil
          rw [hnil] at hlt
          simp at hlt
          omega
        · exact h1 (mid, d) (List.mem_cons_self _ _)
      refine ⟨entryOf d :: l', ?_⟩
      simp only [qualifyingEntries, if_neg hlt, if_neg (best5_length_ne_zero hne), hl']

theorem calculate_ok {pd : List (String × PlayerRecord)} {m : Int}
    {out : List LeaderboardEntry} (h : calculate_leaderboard pd m = .ok out) :
    ∃ l, qualifyingEntries m pd = .ok l ∧ out = l.insertionSort entryLE := by
  unfold calculate_leaderboard at h
  cases hq : qualifyingEntries m pd with
  | error e => rw [hq] at h; exact absurd h (by simp)
  | ok l =>
    rw [hq] at h
    simp only [Except.ok.injEq] at h
    exact ⟨l, rfl, h.symm⟩

/-- C1: whenever `calculate_leaderboard` produces output, every record
whose scores list has length at least `min_rounds` contributes an entry
whose `best_5` is exactly the (at most) 5 numerically smallest scores in
ascending order — `isKSmallestAsc` pins that list down uniquely — and
whose `average_of_best_5` is their arithmetic mean, for every value of
`min_rounds`. -/
theorem C1_best_five_average (pd : List (String × PlayerRecord)) (m : Int)
    (out : List LeaderboardEntry) (h : calculate_leaderboard pd m = .ok out)
    (mid : String) (rec : PlayerRecord) (hmem : (mid, rec) ∈ pd)
    (hq : m ≤ (rec.scores.length : Int)) :
    ∃ e ∈ out, e.name = rec.name ∧ isKSmallestAsc 5 rec.scores e.best_5 ∧
      e.average_of_best_5 = e.best_5.sum / (e.best_5.length : Rat) := by
  obtain ⟨l, hl, rfl⟩ := calculate_ok h
  refine ⟨entryOf rec, ?_, rfl, best5_isKSmallestAsc rec.scores, rfl⟩
  rw [List.mem_insertionSort, qualifyingEntries_ok hl]
  exact List.mem_map.mpr ⟨(mid, rec), List.mem_filter.mpr ⟨hmem, by simpa using hq⟩, rfl⟩

theorem C1_witness :
    ∃ e ∈ [(⟨"Alice", 80, 6, [70, 75, 80, 85, 90]⟩ : LeaderboardEntry)],
      e.name = "Alice" ∧ isKSmallestAsc 5 [80, 75, 90, 70, 85, 95] e.best_5 ∧
      e.average_of_best_5 = e.best_5.sum / (e.best_5.length : Rat) :=
  C1_best_five_average [("m1", ⟨"Alice", [80, 75, 90, 70, 85, 95]⟩)] 5
    [⟨"Alice", 80, 6, [70, 75, 80, 85, 90]⟩]
    (by norm_num [calculate_leaderboard, qualifyingEntries, best5, sortScores, entryOf, entryLE])
    "m1" ⟨"Alice", [80, 75, 90, 70, 85, 95]⟩ (List.mem_singleton.mpr rfl) (by norm_num)

/-- C2: whenever `calculate_leaderboard` produces output, that output is
(up to the final sort) exactly one entry per record whose scores list
has length at least `min_rounds`, in iteration order: a record
contributes an entry iff it qualifies, and records with fewer scores
are excluded. -/
theorem C2_min_rounds_filter (pd : List (String × PlayerRecord)) (m : Int)
    (out : List LeaderboardEntry) (h : calculate_leaderboard pd m = .ok out) :
    out.Perm ((pd.filter fun p => decide (m ≤ (p.2.scores.length : Int))).map
      fun p => entryOf p.2) := by
  obtain ⟨l, hl, rfl⟩ := calculate_ok h
  rw [← qualifyingEntries_ok hl]
  exact List.perm_insertionSort _ _

theorem C2_witness :
    ([(⟨"B", 72, 5, [70, 71, 72, 73, 74]⟩ : LeaderboardEntry)]).Perm
      ((([("m1", ⟨"A", [72, 75]⟩), ("m2", ⟨"B", [70, 71, 72, 73, 74]⟩)] :
          List (String × PlayerRecord)).filter
        fun p => decide ((5 : Int) ≤ (p.2.scores.length : Int))).map
        fun p => entryOf p.2) :=
  C2_min_rounds_filter [("m1", ⟨"A", [72, 75]⟩), ("m2", ⟨"B", [70, 71, 72, 73, 74]⟩)] 5
    [⟨"B", 72, 5, [70, 71, 72, 73, 74]⟩]
    (by norm_num [calculate_leaderboard, qualifyingEntries, best5, sortScores, entryOf, entryLE])

/-- C3: whenever `calculate_leaderboard` produces output, it is sorted
ascending by `average_of_best_5` (both as a `Sorted` statement and for
each adjacent pair), and the sort is stable: two entries with equal
averages keep the relative order of the records they came from in the
iteration order of the input. -/
theorem C3_sorted_and_stable (pd : List (String × PlayerRecord)) (m : Int)
    (out : List LeaderboardEntry) (h : calculate_leaderboard pd m = .ok out) :
    out.Sorted (fun a b => a.average_of_best_5 ≤ b.average_of_best_5) ∧
    (∀ i (hi : i + 1 < out.length),
      (out.get ⟨i, by omega⟩).average_of_best_5 ≤
        (out.get ⟨i + 1, hi⟩).average_of_best_5) ∧
    (∀ a b, List.Sublist [a, b]
        ((pd.filter fun p => decide (m ≤ (p.2.scores.length : Int))).map
          fun p => entryOf p.2) →
      a.average_of_best_5 = b.average_of_best_5 → List.Sublist [a, b] out) := by
  obtain ⟨l, hl, rfl⟩ := calculate_ok h
  have hsorted : (l.insertionSort entryLE).Sorted entryLE :=
    List.sorted_insertionSort entryLE l
  refine ⟨hsorted, fun i hi => ?_, fun a b hab heq => ?_⟩
  · exact hsorted.rel_get_of_lt (Fin.mk_lt_mk.mpr (Nat.lt_succ_self i))
  · rw [← qualifyingEntries_ok hl] at hab
    exact List.pair_sublist_insertionSort (r := entryLE)
      (show entryLE a b from le_of_eq heq) hab

theorem C3_witness :
    ([⟨"A", 70, 5, [70, 70, 70, 70, 70]⟩, ⟨"B", 70, 6, [70, 70, 70, 70, 70]⟩] :
      List LeaderboardEntry).Sorted
      (fun a b => a.average_of_best_5 ≤ b.average_of_best_5) :=
  (C3_sorted_and_stable
    [("m1", ⟨"A", [70, 70, 70, 70, 70]⟩), ("m2", ⟨"B", [70, 70, 70, 70, 70, 80]⟩)] 5
    [⟨"A", 70, 5, [70, 70, 70, 70, 70]⟩, ⟨"B", 70, 6, [70, 70, 70, 70, 70]⟩]
    (by norm_num [calculate_leaderboard, qualifyingEntries, best5, sortScores,
      entryOf, entryLE])).1

/-- C7: the ranking key is order-independent — permuting a qualifying
record's scores leaves both its `average_of_best_5` and the whole
leaderboard output unchanged. -/
theorem C7_permutation_invariance (pd1 pd2 : List (String × PlayerRecord))
    (mid nm : String) (s s' : List Rat) (hperm : s.Perm s') (m : Int)
    (hq : m ≤ (s.length : Int)) :
    (entryOf ⟨nm, s⟩).average_of_best_5 = (entryOf ⟨nm, s'⟩).average_of_best_5 ∧
    calculate_leaderboard (pd1 ++ (mid, ⟨nm, s⟩) :: pd2) m =
      calculate_leaderboard (pd1 ++ (mid, ⟨nm, s'⟩) :: pd2) m := by
  have hsort : sortScores s = sortScores s' :=
    List.eq_of_perm_of_sorted
      ((sortScores_perm s).trans (hperm.trans (sortScores_perm s').symm))
      (sortScores_sorted s) (sortScores_sorted s')
  have hb : best5 s = best5 s' := by rw [best5, best5, hsort]
  have hlen : s.length = s'.length := hperm.length_eq
  have hentry : entryOf ⟨nm, s⟩ = entryOf ⟨nm, s'⟩ := by
    simp only [entryOf, hb, hlen]
  have hqe : qualifyingEntries m (pd1 ++ (mid, ⟨nm, s⟩) :: pd2) =
      qualifyingEntries m (pd1 ++ (mid, ⟨nm, s'⟩) :: pd2) := by
    induction pd1 with
    | nil =>
      simp only [List.nil_append, qualifyingEntries]
      rw [hlen, hb, hentry]
    | cons p rest ih =>
      obtain ⟨mid', d'⟩ := p
      simp only [List.cons_append, qualifyingEntries, List.append_eq]
      rw [ih]
  refine ⟨by rw [hentry], ?_⟩
  unfold calculate_leaderboard
  rw [hqe]

theorem C7_witness :
    (entryOf ⟨"Alice", [80, 75, 90, 70, 85, 95]⟩).average_of_best_5 =
      (entryOf ⟨"Alice", [95, 85, 70, 90, 75, 80]⟩).average_of_best_5 ∧
    calculate_leaderboard [("m1", ⟨"Alice", [80, 75, 90, 70, 85, 95]⟩)] 5 =
      calculate_leaderboard [("m1", ⟨"Alice", [95, 85, 70, 90, 75, 80]⟩)] 5 :=
  C7_permutation_invariance [] [] "m1" "Alice"
    [80, 75, 90, 70, 85, 95] [95, 85, 70, 90, 75, 80] (by decide) 5 (by decide)

/-- C10: the calculator is total only under the unstated precondition
that `min_rounds ≥ 1` or every record has at least one score: with
`min_rounds = 0` (or negative) an empty-scores record passes the
qualification test and the average divides by `len(best_5) = 0`,
raising `ZeroDivisionError`; under the precondition the divisor is
positive and the computation succeeds. -/
theorem C10_totality_precondition :
    calculate_leaderboard [("p1", ⟨"Alice", []⟩)] 0 =
      .error "ZeroDivisionError: division by zero" ∧
    calculate_leaderboard [("p1", ⟨"Alice", []⟩)] (-1) =
      .error "ZeroDivisionError: division by zero" ∧
    ∀ (pd : List (String × PlayerRecord)) (m : Int),
      (1 ≤ m ∨ ∀ p ∈ pd, p.2.scores ≠ []) →
      ∃ out, calculate_leaderboard pd m = .ok out := by
  refine ⟨rfl, rfl, fun pd m h => ?_⟩
  obtain ⟨l, hl⟩ := qualifyingEntries_total h
  refine ⟨l.insertionSort entryLE, ?_⟩
  unfold calculate_leaderboard
  rw [hl]

theorem C10_witness :
    ∃ out, calculate_leaderboard [("p1", ⟨"Alice", [71]⟩)] 1 = .ok out :=
  C10_totality_precondition.2.2 [("p1", ⟨"Alice", [71]⟩)] 1 (Or.inl (by decide))

/-! ### Lemmas about the score-collector merge (C8) -/

theorem mem_of_assocFind_eq_some {β : Type} {mp : List (String × β)} {k : String} {v : β}
    (h : assocFind mp k = some v) : (k, v) ∈ mp := by
  induction mp with
  | nil => simp [assocFind] at h
  | cons p rest ih =>
    obtain ⟨k', v'⟩ := p
    simp only [assocFind] at h
    split at h
    · next heq =>
      obtain rfl := Option.some.inj h
      subst heq
      exact List.mem_cons_self _ _
    · next hne => exact List.mem_cons_of_mem _ (ih h)

theorem findRec_updateMap (mp : List (String × RawRecord)) (r : PlayerResult)
    (mid : String) :
    findRec (updateMap mp r) mid =
      if r.member_id = mid then
        some (applyResult ((findRec mp mid).getD emptyRec) r)
      else findRec mp mid := by
  induction mp with
  | nil =>
    by_cases h : r.member_id = mid <;>
      simp [updateMap, findRec, assocFind, h]
  | cons p rest ih =>
    obtain ⟨k, rec⟩ := p
    by_cases hk : k = r.member_id <;> by_cases hm : k = mid
    · have hrm : r.member_id = mid := hk.symm.trans hm
      simp [updateMap, findRec, assocFind, hk, hm, hrm]
    · have hrm : ¬ r.member_id = mid := fun h => hm (hk.trans h)
      simp [updateMap, findRec, assocFind, hk, hm, hrm]
    · have hrm : ¬ r.member_id = mid := fun h => hk (hm.trans h.symm)
      have hmk : ¬ mid = r.member_id := fun h => hrm h.symm
      simp [updateMap, findRec, assocFind, hk, hm, hrm, hmk]
    · simp only [updateMap, if_neg hk, findRec, assocFind, if_neg hm]
      exact ih

theorem mem_keys_updateMap (mp : List (String × RawRecord)) (r : PlayerResult)
    (a : String) :
    a ∈ (updateMap mp r).map Prod.fst ↔ a ∈ mp.map Prod.fst ∨ a = r.member_id := by
  induction mp with
  | nil => simp [updateMap]
  | cons p rest ih =>
    obtain ⟨k, rec⟩ := p
    by_cases hk : k = r.member_id
    · simp only [updateMap, if_pos hk, List.map_cons, List.mem_cons]
      rw [hk]
      tauto
    · simp only [updateMap, if_neg hk, List.map_cons, List.mem_cons, ih]
      tauto

theorem nodup_keys_updateMap (mp : List (String × RawRecord)) (r : PlayerResult)
    (h : (mp.map Prod.fst).Nodup) : ((updateMap mp r).map Prod.fst).Nodup := by
  induction mp with
  | nil => simp [updateMap]
  | cons p rest ih =>
    obtain ⟨k, rec⟩ := p
    rw [List.map_cons, List.nodup_cons] at h
    by_cases hk : k = r.member_id
    · simp only [updateMap, if_pos hk, List.map_cons, List.nodup_cons]
      exact h
    · simp only [updateMap, if_neg hk, List.map_cons, List.nodup_cons]
      refine ⟨fun hmem => ?_, ih h.2⟩
      rcases (mem_keys_updateMap rest r k).mp hmem with hmem' | hmem'
      · exact h.1 hmem'
      · exact hk hmem'

theorem nodup_keys_mergeResults (results : List PlayerResult) :
    ∀ acc : List (String × RawRecord), (acc.map Prod.fst).Nodup →
      ((mergeResults acc results).map Prod.fst).Nodup := by
  induction results with
  | nil => exact fun acc h => h
  | cons r rest ih =>
    intro acc h
    exact ih (updateMap acc r) (nodup_keys_updateMap acc r h)

theorem findRec_mergeResults (results : List PlayerResult) :
    ∀ (acc : List (String × RawRecord)) (mid : String),
      findRec (mergeResults acc results) mid =
        if (results.filter fun r => decide (r.member_id = mid)) = [] then
          findRec acc mid
        else
          some ((results.filter fun r => decide (r.member_id = mid)).foldl
            applyResult ((findRec acc mid).getD emptyRec)) := by
  induction results with
  | nil => intro acc mid; simp [mergeResults]
  | cons r rest ih =>
    intro acc mid
    have hmr : mergeResults acc (r :: rest) = mergeResults (updateMap acc r) rest := rfl
    rw [hmr, ih (updateMap acc r) mid, findRec_updateMap]
    by_cases h : r.member_id = mid
    · simp only [List.filter_cons, h, decide_True, if_pos rfl]
      by_cases hf : (rest.filter fun r => decide (r.member_id = mid)) = []
      · simp [hf, h]
      · simp [hf, h, List.foldl_cons]
    · simp [List.filter_cons, h]

theorem foldl_applyResult_scores (fs : List PlayerResult) :
    ∀ st : RawRecord,
      (fs.foldl applyResult st).scores = st.scores ++ fs.map fun r => r.gross_score := by
  induction fs with
  | nil => intro st; simp
  | cons r rest ih =>
    intro st
    rw [List.foldl_cons, ih, List.map_cons]
    simp [applyResult]

theorem foldl_applyResult_name :
    ∀ (fs : List PlayerResult) (st : RawRecord), fs ≠ [] →
      (fs.map fun r => r.name).getLast? = some ((fs.foldl applyResult st).name)
  | [], _, h => absurd rfl h
  | [r], st, _ => by simp [applyResult]
  | r :: r' :: rest, st, _ => by
    rw [List.foldl_cons]
    have := foldl_applyResult_name (r' :: rest) (applyResult st r) (by simp)
    simpa using this

/-- C8: merging any sequence of tournament results into an initially
empty map yields exactly one record per distinct `member_id`; that
record's `scores` are precisely the gross scores of every result with
that `member_id` in encounter order (appended, never overwritten or
deduplicated), and its `name` is the name of the last-encountered such
result. -/
theorem C8_merge_accumulation (results : List PlayerResult) :
    ((mergeResults [] results).map Prod.fst).Nodup ∧
    (∀ mid rec, (mid, rec) ∈ mergeResults [] results →
      rec.scores = ((results.filter fun r => decide (r.member_id = mid)).map
        fun r => r.gross_score) ∧
      ((results.filter fun r => decide (r.member_id = mid)).map
        fun r => r.name).getLast? = some rec.name) ∧
    (∀ mid, (∃ rec, (mid, rec) ∈ mergeResults [] results) ↔
      ∃ r ∈ results, r.member_id = mid) := by
  have hnd : ((mergeResults [] results).map Prod.fst).Nodup :=
    nodup_keys_mergeResults results [] (by simp)
  refine ⟨hnd, fun mid rec hmem => ?_, fun mid => ?_⟩
  · have hfind : findRec (mergeResults [] results) mid = some rec :=
      assocFind_of_mem hnd hmem
    rw [findRec_mergeResults results [] mid] at hfind
    by_cases hf : (results.filter fun r => decide (r.member_id = mid)) = []
    · rw [if_pos hf] at hfind
      exact absurd hfind (by simp [findRec, assocFind])
    · rw [if_neg hf] at hfind
      have hrec : rec = (results.filter fun r => decide (r.member_id = mid)).foldl
          applyResult emptyRec := by
        have : findRec ([] : List (String × RawRecord)) mid = none := rfl
        rw [this] at hfind
        exact (Option.some.inj hfind).symm
      subst hrec
      constructor
      · rw [foldl_applyResult_scores]
        rfl
      · exact foldl_applyResult_name _ emptyRec hf
  · constructor
    · rintro ⟨rec, hmem⟩
      have hfind : findRec (mergeResults [] results) mid = some rec :=
        assocFind_of_mem hnd hmem
      rw [findRec_mergeResults results [] mid] at hfind
      by_cases hf : (results.filter fun r => decide (r.member_id = mid)) = []
      · rw [if_pos hf] at hfind
        exact absurd hfind (by simp [findRec, assocFind])
      · obtain ⟨r, hr⟩ := List.exists_mem_of_ne_nil _ hf
        have := List.mem_filter.mp hr
        exact ⟨r, this.1, of_decide_eq_true this.2⟩
    · rintro ⟨r, hrmem, hrmid⟩
      have hf : (results.filter fun r => decide (r.member_id = mid)) ≠ [] := by
        intro hnil
        have : r ∈ results.filter fun r => decide (r.member_id = mid) :=
          List.mem_filter.mpr ⟨hrmem, decide_eq_true hrmid⟩
        rw [hnil] at this
        cases this
      have hfind : findRec (mergeResults [] results) mid =
          some ((results.filter fun r => decide (r.member_id = mid)).foldl
            applyResult ((findRec ([] : List (String × RawRecord)) mid).getD emptyRec)) := by
        rw [findRec_mergeResults results [] mid, if_neg hf]
      exact ⟨_, mem_of_assocFind_eq_some hfind⟩

theorem C8_witness :
    (⟨"Ali", [72, 75]⟩ : RawRecord).scores =
      ((([⟨"m1", "Al", 72⟩, ⟨"m2", "Bo", 70⟩, ⟨"m1", "Ali", 75⟩] :
          List PlayerResult).filter fun r => decide (r.member_id = "m1")).map
        fun r => r.gross_score) ∧
    ((([⟨"m1", "Al", 72⟩, ⟨"m2", "Bo", 70⟩, ⟨"m1", "Ali", 75⟩] :
        List PlayerResult).filter fun r => decide (r.member_id = "m1")).map
      fun r => r.name).getLast? = some "Ali" :=
  (C8_merge_accumulation [⟨"m1", "Al", 72⟩, ⟨"m2", "Bo", 70⟩, ⟨"m1", "Ali", 75⟩]).2.1
    "m1" ⟨"Ali", [72, 75]⟩ (List.mem_cons_self _ _)

/-- C9: a failure fetching one tournament's results leaves the
accumulated map unchanged and processing continues; a failure fetching a
round's tournament ids likewise leaves the map unchanged; and globally,
a run in which one round's tournament-id fetch fails produces exactly
the same final map as a run in which that round simply has no
tournaments — so the other rounds' and events' data are preserved. -/
theorem C9_failure_isolation :
    (∀ (env : ApiEnv) (e r t : String) (acc : List (String × RawRecord)) (err : String),
      env.results e r t = .error err → processTournament env e r acc t = acc) ∧
    (∀ (env : ApiEnv) (e r : String) (acc : List (String × RawRecord)) (err : String),
      env.tournament_ids e r = .error err → processRound env e acc r = acc) ∧
    (∀ (env : ApiEnv) (events : List String) (e0 r0 err : String),
      env.tournament_ids e0 r0 = .error err →
      fetch_all_scores env events =
        fetch_all_scores
          { env with tournament_ids := fun e r =>
              if e = e0 ∧ r = r0 then .ok [] else env.tournament_ids e r }
          events) := by
  refine ⟨fun env e r t acc err h => ?_, fun env e r acc err h => ?_,
    fun env events e0 r0 err herr => ?_⟩
  · simp [processTournament, h]
  · simp [processRound, h]
  · have key : ∀ e acc r,
        processRound
          { env with tournament_ids := fun e r =>
              if e = e0 ∧ r = r0 then .ok [] else env.tournament_ids e r }
          e acc r = processRound env e acc r := by
      intro e acc r
      by_cases hc : e = e0 ∧ r = r0
      · obtain ⟨rfl, rfl⟩ := hc
        simp [processRound, herr]
      · simp only [processRound]
        rw [if_neg hc]
        rfl
    have hpe : processEvent
        { env with tournament_ids := fun e r =>
            if e = e0 ∧ r = r0 then .ok [] else env.tournament_ids e r } =
        processEvent env := by
      funext acc e
      simp only [processEvent]
      cases hr : env.rounds e with
      | error er => rfl
      | ok rounds =>
        have : (processRound
            { env with tournament_ids := fun e r =>
                if e = e0 ∧ r = r0 then .ok [] else env.tournament_ids e r } e) =
            processRound env e := funext fun acc' => funext fun r' => key e acc' r'
        rw [this]
    unfold fetch_all_scores
    rw [hpe]

theorem C9_witness :
    fetch_all_scores envC ["E1"] =
      fetch_all_scores
        { envC with tournament_ids := fun e r =>
            if e = "E1" ∧ r = "R1" then .ok [] else envC.tournament_ids e r }
        ["E1"] ∧
    fetch_all_scores envC ["E1"] = .ok [("m1", ⟨"Al", [72]⟩)] :=
  ⟨C9_failure_isolation.2.2 envC ["E1"] "E1" "R1" "boom" rfl, rfl⟩
